import Mathlib

/-!
Verification of the secure data-submission pipeline of the MBC-Form
repository (class `SecureSupabaseConnector`).  The JavaScript methods are
shallowly embedded as executable Lean definitions: records are ordered
association lists of string keys and JSON values (mirroring JS object
insertion-order semantics), cryptographic primitives (`encrypt`, SHA-256
`hash`) are passed as opaque `String → String` parameters, and the network
is a parameter of the submission pipeline.
-/

set_option maxRecDepth 20000

/-- A JavaScript JSON-serializable primitive value, as stored in form
records (string, number, boolean or null). -/
inductive JSValue where
  | str (s : String)
  | num (n : Int)
  | bool (b : Bool)
  | null
deriving DecidableEq, Repr

/-- A form record: an ordered list of key/value pairs, mirroring a JS
object's insertion order.  JS objects have no duplicate keys; theorems that
need this take a `Nodup` hypothesis on the key list. -/
abbrev Record := List (String × JSValue)

/-- The keys of a record, in insertion order. -/
def recKeys (r : Record) : List String := r.map Prod.fst

/-- Property lookup `r[k]`: the value at the first occurrence of key `k`. -/
def lookupJS (k : String) : Record → Option JSValue
  | [] => none
  | (k', v) :: rest => if k' = k then some v else lookupJS k rest

/-- Property assignment `r[k] = v`: replaces the value at an existing key in
place (JS objects keep the original key position on re-assignment), or
appends the key at the end if absent. -/
def objSet : Record → String → JSValue → Record
  | [], k, v => [(k, v)]
  | (k', v') :: rest, k, v =>
      if k' = k then (k', v) :: rest else (k', v') :: objSet rest k v

/-- JS truthiness of a record value: `""`, `0`, `false` and `null` are
falsy, everything else is truthy. -/
def truthy : JSValue → Bool
  | .str s => s ≠ ""
  | .num n => n ≠ 0
  | .bool b => b
  | .null => false

/-- JS `value.toString()` for record values (only ever applied to truthy
values in the embedded code). -/
def jsToString : JSValue → String
  | .str s => s
  | .num n => toString n
  | .bool b => if b then "true" else "false"
  | .null => "null"

/-- JS truthiness of an optional string (`undefined` and `""` are falsy). -/
def truthyOpt : Option String → Bool
  | none => false
  | some s => s ≠ ""

/-- JS `opt || dflt` on an optional string: the default replaces both a
missing and an empty string. -/
def orDefault (o : Option String) (d : String) : String :=
  match o with
  | none => d
  | some s => if s = "" then d else s

/-! ### JSON serialization (`JSON.stringify`) -/

/-- One hexadecimal digit, lowercase (as produced by JS `\uXXXX` escapes). -/
def hexDigit (n : Nat) : Char :=
  if n < 10 then Char.ofNat (48 + n) else Char.ofNat (87 + n)

/-- Four-digit lowercase hex rendering used in JSON `\uXXXX` escapes. -/
def hex4 (n : Nat) : String :=
  ⟨[hexDigit (n / 4096 % 16), hexDigit (n / 256 % 16),
    hexDigit (n / 16 % 16), hexDigit (n % 16)]⟩

/-- JSON string-character escaping, following `JSON.stringify`. -/
def jsonEscapeChar (c : Char) : String :=
  if c = '"' then "\\\""
  else if c = '\\' then "\\\\"
  else if c = '\n' then "\\n"
  else if c = '\r' then "\\r"
  else if c = '\t' then "\\t"
  else if c = Char.ofNat 8 then "\\b"
  else if c = Char.ofNat 12 then "\\f"
  else if c.toNat < 32 then "\\u" ++ hex4 c.toNat
  else String.singleton c

/-- A JSON-quoted string literal. -/
def jsonQuote (s : String) : String :=
  "\"" ++ String.join (s.data.map jsonEscapeChar) ++ "\""

/-- Serialization of a primitive record value, as `JSON.stringify` emits it. -/
def serValue : JSValue → String
  | .str s => jsonQuote s
  | .num n => toString n
  | .bool b => if b then "true" else "false"
  | .null => "null"

/-- Serialization of an explicit key/value sequence as a JSON object body. -/
def stringifyEntries (ps : List (String × JSValue)) : String :=
  "\x7b" ++ String.intercalate ","
    (ps.map (fun kv => jsonQuote kv.1 ++ ":" ++ serValue kv.2)) ++ "\x7d"

/-- Model of `JSON.stringify(record)`: keys in insertion order. -/
def jsonStringify (r : Record) : String := stringifyEntries r

/-! ### Regular-expression style pattern matching

The classifier regexes are either literal substrings (e.g. `/patent/i`) or
two literals separated by `.*` (e.g. `/trade.*secret/i`).  They are embedded
as decidable scans over character lists; `.` excludes line terminators, as
in JS regexes. -/

/-- Whether `p` is a prefix of `s` (Boolean, structural). -/
def isPrefixOfB : List Char → List Char → Bool
  | [], _ => true
  | _ :: _, [] => false
  | p :: ps, c :: cs => p = c && isPrefixOfB ps cs

/-- Substring search: does `p` occur contiguously inside `s`? -/
def containsL (p : List Char) : List Char → Bool
  | [] => isPrefixOfB p []
  | c :: rest => isPrefixOfB p (c :: rest) || containsL p rest

/-- JS regex line terminators, which `.` does not match. -/
def isLineTerm (c : Char) : Bool :=
  c = '\n' || c = '\r' || c = Char.ofNat 0x2028 || c = Char.ofNat 0x2029

/-- Does `s` start with a (possibly empty) run of non-line-terminator
characters followed by the literal `q`?  (The `.*q` tail of a pattern.) -/
def gapThen (q : List Char) : List Char → Bool
  | [] => isPrefixOfB q []
  | c :: rest => isPrefixOfB q (c :: rest) || (!isLineTerm c && gapThen q rest)

/-- Match of a `p.*q` regex anywhere in `s`: an occurrence of `p`, then any
run of non-line-terminator characters, then `q`. -/
def gapMatch (p q : List Char) : List Char → Bool
  | [] => isPrefixOfB p [] && gapThen q []
  | c :: rest =>
      (isPrefixOfB p (c :: rest) && gapThen q ((c :: rest).drop p.length)) ||
      gapMatch p q rest

/-- Ends-with test for the `/id$/i`-style anchored patterns. -/
def endsWithB (p s : List Char) : Bool := isPrefixOfB p.reverse s.reverse

/-- ASCII lower-casing of one character, as JS `toLowerCase` acts on the
ASCII range (all characters the classifier patterns can match). -/
def lowerChar (c : Char) : Char :=
  if 'A' ≤ c ∧ c ≤ 'Z' then Char.ofNat (c.toNat + 32) else c

/-- Lower-cased character list of a string. -/
def lowerData (s : String) : List Char := s.data.map lowerChar

/-! ### `isSensitiveField` and `classifyData` -/

/-- The sensitive-name scan of `isSensitiveField` applied to one lowercased
name: the fixed case-insensitive pattern list
`email, phone, ssn, social, /id$/, /name$/, address, dob, birth, medical,
salary, wage, income, credit, password`. -/
def sensMatch (s : List Char) : Bool :=
  containsL "email".data s || containsL "phone".data s ||
  containsL "ssn".data s || containsL "social".data s ||
  endsWithB "id".data s || endsWithB "name".data s ||
  containsL "address".data s || containsL "dob".data s ||
  containsL "birth".data s || containsL "medical".data s ||
  containsL "salary".data s || containsL "wage".data s ||
  containsL "income".data s || containsL "credit".data s ||
  containsL "password".data s

/-- Model of `isSensitiveField(\x7bname, label\x7d)`: true when the field name or label
matches any sensitive pattern (case-insensitively). -/
def isSensitiveField (name label : String) : Bool :=
  sensMatch (lowerData name) || sensMatch (lowerData label)

/-- The `restrictedPatterns` scan of `classifyData` over the lowercased
serialized record: `proprietary, confidential, /trade.*secret/, patent,
/intellectual.*property/, classified`. -/
def restrictedMatch (s : List Char) : Bool :=
  containsL "proprietary".data s || containsL "confidential".data s ||
  gapMatch "trade".data "secret".data s || containsL "patent".data s ||
  gapMatch "intellectual".data "property".data s ||
  containsL "classified".data s

/-- The `confidentialPatterns` scan of `classifyData`:
`/social.*security/, ssn, medical, health, financial, salary, wage, credit,
bank`. -/
def confidentialMatch (s : List Char) : Bool :=
  gapMatch "social".data "security".data s || containsL "ssn".data s ||
  containsL "medical".data s || containsL "health".data s ||
  containsL "financial".data s || containsL "salary".data s ||
  containsL "wage".data s || containsL "credit".data s ||
  containsL "bank".data s

/-- Model of `classifyData(data)`: serialize the record, lowercase it, then return
`restricted` on a restricted-pattern hit, else `confidential` on a
confidential-pattern hit, else `internal` (the PII branch of the source
also returns `internal`, so it is observationally absorbed). -/
def classifyData (r : Record) : String :=
  let s := lowerData (jsonStringify r)
  if restrictedMatch s then "restricted"
  else if confidentialMatch s then "confidential"
  else "internal"

/-! ### `sanitizeColumnName` -/

/-- The regex word-character class `[a-zA-Z0-9_]` by code point. -/
def jsWordChar (c : Char) : Bool :=
  (65 ≤ c.toNat && c.toNat ≤ 90) || (97 ≤ c.toNat && c.toNat ≤ 122) ||
  (48 ≤ c.toNat && c.toNat ≤ 57) || c = '_'

/-- The regex digit class `[0-9]` by code point. -/
def jsDigit (c : Char) : Bool := 48 ≤ c.toNat && c.toNat ≤ 57

/-- Model of the first replace, `name.replace(/[^a-zA-Z0-9_]/g, '_')`. -/
def sanitizeStep1 (s : String) : List Char :=
  s.data.map (fun c => if jsWordChar c then c else '_')

/-- Model of the second replace, `.replace(/^[0-9]/, '_$&')`: prefix an underscore when the first
character is a digit. -/
def sanitizeStep2 : List Char → List Char
  | [] => []
  | c :: rest => if jsDigit c then '_' :: c :: rest else c :: rest

/-- Model of `sanitizeColumnName(name)`: replace every character outside
`[a-zA-Z0-9_]` by `_`, prefix a leading digit with `_`, then lowercase. -/
def sanitizeColumnName (s : String) : String :=
  ⟨(sanitizeStep2 (sanitizeStep1 s)).map lowerChar⟩

/-- The identifier grammar `[a-zA-Z][a-zA-Z0-9_]*` claimed by the spec for
sanitized names: a leading ASCII letter, then word characters. -/
def matchesIdentGrammar (s : String) : Bool :=
  match s.data with
  | [] => false
  | c :: cs =>
      ((65 ≤ c.toNat && c.toNat ≤ 90) || (97 ≤ c.toNat && c.toNat ≤ 122)) &&
      cs.all jsWordChar

/-! ### `generateDataHash`

`generateDataHash(data)` serializes with `JSON.stringify(data,
Object.keys(data).sort())`; a replacer array makes `stringify` emit the
listed keys in the array's order, so the record is canonicalized by key
sort.  The SHA-256 + salt `hash` method is an opaque parameter. -/

/-- Model of `Object.keys(data).sort()`: the record's keys in ascending order. -/
def sortedKeys (r : Record) : List String :=
  List.insertionSort (· ≤ ·) (recKeys r)

/-- Model of `JSON.stringify(data, Object.keys(data).sort())`: entries emitted in
sorted-key order, each value fetched by property lookup. -/
def jsonStringifySortedKeys (r : Record) : String :=
  stringifyEntries
    ((sortedKeys r).filterMap (fun k => (lookupJS k r).map (fun v => (k, v))))

/-- Model of `generateDataHash(data)` with the hashing primitive as parameter. -/
def generateDataHash (hash : String → String) (r : Record) : String :=
  hash (jsonStringifySortedKeys r)

/-! ### `validateSubmission` -/

/-- The per-operation security context `{userEmail, department, role}`;
absent properties are `none` (JS `undefined`). -/
structure SecurityContext where
  userEmail : Option String
  department : Option String
  role : Option String

/-- Result shape of `validateSubmission`. -/
structure Validation where
  isValid : Bool
  errors : List String
  warnings : List String
deriving DecidableEq, Repr

/-- JS `String.trim` on the embedded character model. -/
def trimL (s : String) : String :=
  ⟨((s.data.dropWhile Char.isWhitespace).reverse.dropWhile
      Char.isWhitespace).reverse⟩

/-- Model of `validateSubmission(formData, tableName, securityContext)`: an
authentication error when `userEmail` is falsy, a permission error when the
computed classification is `restricted` and the role is not `admin`, and a
warning (never an error) per empty field. -/
def validateSubmission (formData : Record) (_tableName : String)
    (ctx : SecurityContext) : Validation :=
  let e1 : List String :=
    if truthyOpt ctx.userEmail then [] else ["User authentication required"]
  let e2 : List String :=
    if classifyData formData = "restricted" ∧ ctx.role ≠ some "admin" then
      ["Restricted data requires admin permissions"]
    else []
  let ws : List String := formData.filterMap (fun kv =>
    if truthy kv.2 = false ∨ trimL (jsToString kv.2) = "" then
      some ("Empty field: " ++ kv.1)
    else none)
  ⟨(e1 ++ e2).isEmpty, e1 ++ e2, ws⟩

/-! ### `encryptSensitiveData` -/

/-- One iteration of the `encryptSensitiveData` loop: a sensitive key with
truthy value contributes `<key>_encrypted` and `<key>_hash` entries (and
drops the plaintext key), every other entry is copied through unchanged. -/
def encStep (enc hash : String → String) (acc : Record)
    (e : String × JSValue) : Record :=
  if isSensitiveField e.1 "" && truthy e.2 then
    objSet (objSet acc (e.1 ++ "_encrypted") (.str (enc (jsToString e.2))))
      (e.1 ++ "_hash") (.str (hash (jsToString e.2)))
  else objSet acc e.1 e.2

/-- Model of `encryptSensitiveData(data)`: folds the loop over the record's entries
into a fresh object.  `enc` and `hash` are the cipher and digest
primitives (modelled as total; the source's catch-fallback never fires). -/
def encryptSensitiveData (enc hash : String → String) (data : Record) :
    Record :=
  data.foldl (encStep enc hash) []

/-! ### The submission pipeline (`submitSecureData`) -/

/-- The security-metadata + encryption + digest transformation of
`submitSecureData` (its lines between validation and the POST): spread the
record, attach `department`, `security_classification`, `created_by`,
encrypt sensitive fields, then attach `data_hash` computed from the
original `formData`. -/
def transformRecord (enc hash : String → String) (formData : Record)
    (ctx : SecurityContext) : Record :=
  let secureData :=
    objSet (objSet (objSet formData
      "department" (.str (orDefault ctx.department "general")))
      "security_classification" (.str (classifyData formData)))
      "created_by" (.str (orDefault ctx.userEmail "anonymous"))
  let encryptedData := encryptSensitiveData enc hash secureData
  objSet encryptedData "data_hash" (.str (generateDataHash hash formData))

/-- Outcome of the POST to the remote endpoint (a parameter of the
pipeline): success, or failure with the endpoint's optional message. -/
inductive NetResult where
  | ok
  | err (msg : Option String)

/-- What `submitSecureData` produces: the caller-visible result flag and
error, the transmitted record (`none` when no POST was issued), and the
names of the audit-log events emitted during the call, in order. -/
structure SubmitOutcome where
  success : Bool
  error : Option String
  sent : Option Record
  events : List String

/-- Model of `submitSecureData(tableName, formData, securityContext)`: connection
check, validation (which itself logs `VALIDATION_ATTEMPT`), transformation,
POST, with every failure caught and logged as `DATA_SUBMISSION_FAILED` and
every success logged as `DATA_SUBMITTED`. -/
def submitSecureData (connected : Bool) (tableName : String)
    (formData : Record) (ctx : SecurityContext) (enc hash : String → String)
    (net : NetResult) : SubmitOutcome :=
  if connected then
    let validation := validateSubmission formData tableName ctx
    if validation.isValid then
      let encryptedData := transformRecord enc hash formData ctx
      match net with
      | .ok =>
          ⟨true, none, some encryptedData,
            ["VALIDATION_ATTEMPT", "DATA_SUBMITTED"]⟩
      | .err m =>
          ⟨false, some (m.getD "Failed to submit secure data"),
            some encryptedData, ["VALIDATION_ATTEMPT", "DATA_SUBMISSION_FAILED"]⟩
    else
      ⟨false,
        some ("Validation failed: " ++ String.intercalate ", " validation.errors),
        none, ["VALIDATION_ATTEMPT", "DATA_SUBMISSION_FAILED"]⟩
  else
    ⟨false, some "Not connected to database. Please connect first.", none,
      ["DATA_SUBMISSION_FAILED"]⟩

/-! ### Schema generation (`generateSecureTableSchema`) -/

/-- A form field descriptor, as consumed by the schema generator. -/
structure FieldDesc where
  name : String
  ftype : String
  required : Bool
  label : String

/-- The security options recognized by `createSecureTable`; `none` models
an omitted property. -/
structure SecurityOptions where
  enableAuditLog : Option Bool
  enableEncryption : Option Bool
  departmentLevel : Option Bool
  retentionDays : Option Nat
  accessLevel : Option String

/-- Options after `createSecureTable`'s destructuring defaults
(`enableAuditLog = true`, `enableEncryption = true`,
`departmentLevel = true`, `accessLevel = 'internal'`). -/
structure ResolvedOptions where
  enableAuditLog : Bool
  enableEncryption : Bool
  departmentLevel : Bool
  accessLevel : String

/-- Model of `mapFieldTypeToPostgreSQL`: the field-type → Postgres-type table, with
`TEXT` as default. -/
def mapFieldTypeToPostgreSQL (t : String) : String :=
  if t = "text" then "TEXT" else if t = "email" then "TEXT"
  else if t = "number" then "NUMERIC" else if t = "date" then "DATE"
  else if t = "datetime-local" then "TIMESTAMPTZ"
  else if t = "textarea" then "TEXT" else if t = "select" then "TEXT"
  else if t = "radio" then "TEXT" else if t = "checkbox" then "BOOLEAN"
  else if t = "file" then "TEXT" else if t = "tel" then "TEXT"
  else if t = "url" then "TEXT" else if t = "time" then "TIME"
  else if t = "month" then "TEXT" else if t = "week" then "TEXT"
  else "TEXT"

/-- The per-field column text of the `fields.forEach` loop in
`generateSecureTableSchema` (index-aware for the trailing-comma rule). -/
def fieldColumnSQL (o : ResolvedOptions) (total : Nat) (p : Nat × FieldDesc) :
    String :=
  let columnName := sanitizeColumnName p.2.name
  let pgType := mapFieldTypeToPostgreSQL p.2.ftype
  let nullable := if p.2.required then "NOT NULL" else ""
  if o.enableEncryption && isSensitiveField p.2.name p.2.label then
    "    \"" ++ columnName ++ "_encrypted\" TEXT,\n" ++
    "    \"" ++ columnName ++ "_hash\" TEXT,\n"
  else
    "    \"" ++ columnName ++ "\" " ++ pgType ++ " " ++ nullable ++
    (if p.1 < total - 1 || o.enableAuditLog then "," else "") ++ "\n"

/-- The `createTable` string of `generateSecureTableSchema(tableName,
fields, options)`: DDL, row-level-security activation and indexes. -/
def generateSecureTableSchema (tableName : String) (fields : List FieldDesc)
    (o : ResolvedOptions) : String :=
  "-- Create secure table: " ++ tableName ++ "\n" ++
  "CREATE TABLE IF NOT EXISTS \"" ++ tableName ++ "\" (\n" ++
  "    id BIGSERIAL PRIMARY KEY,\n" ++
  "    created_at TIMESTAMPTZ DEFAULT NOW(),\n" ++
  "    updated_at TIMESTAMPTZ DEFAULT NOW(),\n" ++
  "    created_by TEXT DEFAULT auth.email(),\n" ++
  (if o.departmentLevel then
    "    department TEXT NOT NULL DEFAULT 'general',\n" else "") ++
  "    security_classification TEXT DEFAULT '" ++ o.accessLevel ++ "',\n" ++
  "    data_hash TEXT,\n" ++
  (if o.enableAuditLog then
    "    audit_log JSONB DEFAULT '[]'::jsonb,\n" else "") ++
  String.join ((fields.enum).map (fieldColumnSQL o fields.length)) ++
  ");" ++
  "\n\n-- Enable Row Level Security\n" ++
  "ALTER TABLE \"" ++ tableName ++ "\" ENABLE ROW LEVEL SECURITY;\n" ++
  "\n-- Performance indexes\n" ++
  "CREATE INDEX IF NOT EXISTS idx_" ++ tableName ++ "_created_at ON \"" ++
    tableName ++ "\" (created_at);\n" ++
  "CREATE INDEX IF NOT EXISTS idx_" ++ tableName ++ "_created_by ON \"" ++
    tableName ++ "\" (created_by);\n" ++
  (if o.departmentLevel then
    "CREATE INDEX IF NOT EXISTS idx_" ++ tableName ++ "_department ON \"" ++
      tableName ++ "\" (department);\n" else "")

/-- Operation `generateTableSQL` as the spec names it: `createSecureTable`
resolves the option defaults and calls `generateSecureTableSchema`; this is
that composition, returning the `createTable` SQL text. -/
def generateTableSQL (tableName : String) (fields : List FieldDesc)
    (opts : SecurityOptions) : String :=
  generateSecureTableSchema tableName fields
    ⟨opts.enableAuditLog.getD true, opts.enableEncryption.getD true,
     opts.departmentLevel.getD true, opts.accessLevel.getD "internal"⟩

/-! ### The persisted audit log (`logSecurityEvent`) -/

/-- One persisted security-log entry. -/
structure LogEntry where
  timestamp : String
  event : String
  user : String
  ip : String
  userAgent : String
deriving DecidableEq, Repr

/-- The persistence step of `logSecurityEvent`: push the entry onto the
stored log, then `splice(0, length - 1000)` whenever the length exceeds
1000 (keep only the last 1000 entries). -/
def appendPersistedLog (logs : List LogEntry) (e : LogEntry) :
    List LogEntry :=
  let l := logs ++ [e]
  if l.length > 1000 then l.drop (l.length - 1000) else l

/-! ## Helper lemmas -/

/-- Valid code points round-trip through `Char.ofNat`. -/
theorem char_toNat_ofNat (n : Nat) (h : n.isValidChar) :
    (Char.ofNat n).toNat = n := by
  simp [Char.ofNat, Char.toNat, h, Char.ofNatAux, UInt32.toNat,
    UInt32.ofNatCore, BitVec.toNat_ofNatLt]

/-- ASCII lower-casing keeps a character inside the word class. -/
theorem lowerChar_jsWord (c : Char) (h : jsWordChar c = true) :
    jsWordChar (lowerChar c) = true := by
  unfold lowerChar
  split
  · rename_i hc
    obtain ⟨h1, h2⟩ := hc
    rw [Char.le_def] at h1 h2
    have hb1 : 65 ≤ c.toNat := h1
    have hb2 : c.toNat ≤ 90 := h2
    have hv : (c.toNat + 32).isValidChar := Or.inl (by omega)
    unfold jsWordChar
    rw [char_toNat_ofNat (c.toNat + 32) hv]
    simp only [Bool.or_eq_true, Bool.and_eq_true, decide_eq_true_eq]
    omega
  · exact h

/-- ASCII lower-casing never produces a digit from a non-digit. -/
theorem lowerChar_notDigit (c : Char) (h : jsDigit c = false) :
    jsDigit (lowerChar c) = false := by
  unfold lowerChar
  split
  · rename_i hc
    obtain ⟨h1, h2⟩ := hc
    rw [Char.le_def] at h1 h2
    have hb1 : 65 ≤ c.toNat := h1
    have hb2 : c.toNat ≤ 90 := h2
    have hv : (c.toNat + 32).isValidChar := Or.inl (by omega)
    unfold jsDigit
    rw [char_toNat_ofNat (c.toNat + 32) hv]
    simp only [Bool.and_eq_true, decide_eq_true_eq, Bool.and_eq_false_imp,
      decide_eq_false_iff_not]
    omega
  · exact h

/-- Every character of `sanitizeStep1` output is a word character. -/
theorem sanitizeStep1_jsWord (s : String) (c : Char)
    (h : c ∈ sanitizeStep1 s) : jsWordChar c = true := by
  unfold sanitizeStep1 at h
  obtain ⟨c0, _, rfl⟩ := List.mem_map.mp h
  split
  · assumption
  · decide

/-! ## Claim theorems -/

/-- Claim C9 counterexample: the claim says every `sanitizeColumnName`
output matches `[a-zA-Z][a-zA-Z0-9_]*`, but the input `"1a"` produces
`"_1a"`, whose leading underscore is outside that grammar. -/
theorem sanitizeColumnName_grammar_refuted :
    sanitizeColumnName "1a" = "_1a" ∧
    matchesIdentGrammar (sanitizeColumnName "1a") = false := by
  constructor <;> decide

/-- Claim C9 (amended): for every input string, `sanitizeColumnName`
returns a string all of whose characters lie in `[a-z0-9_]` (a fortiori in
`[a-zA-Z0-9_]`) and whose first character, when the string is non-empty, is
not a digit — i.e. the output matches `[a-zA-Z_][a-zA-Z0-9_]*` (or is
empty), but may legitimately start with an underscore, contrary to the
claimed `[a-zA-Z]` lead. -/
theorem sanitizeColumnName_shape (s : String) :
    (sanitizeColumnName s).data.all jsWordChar = true ∧
    jsDigit ((sanitizeColumnName s).data.headD 'a') = false := by
  constructor
  · rw [List.all_eq_true]
    intro c hc
    have hc' : c ∈ (sanitizeStep2 (sanitizeStep1 s)).map lowerChar := hc
    obtain ⟨c0, hc0, rfl⟩ := List.mem_map.mp hc'
    apply lowerChar_jsWord
    have hcase : c0 = '_' ∨ c0 ∈ sanitizeStep1 s := by
      rcases hs : sanitizeStep1 s with _ | ⟨d, rest⟩
      · rw [hs] at hc0
        simp only [sanitizeStep2, List.not_mem_nil] at hc0
      · rw [hs] at hc0
        simp only [sanitizeStep2] at hc0
        by_cases hd : jsDigit d = true
        · rw [if_pos hd] at hc0
          simp only [List.mem_cons] at hc0
          rcases hc0 with rfl | hc0
          · exact Or.inl rfl
          · exact Or.inr (List.mem_cons.mpr hc0)
        · rw [if_neg hd] at hc0
          exact Or.inr hc0
    rcases hcase with rfl | h
    · decide
    · exact sanitizeStep1_jsWord s c0 h
  · show jsDigit (((sanitizeStep2 (sanitizeStep1 s)).map lowerChar).headD 'a') = false
    rcases hs : sanitizeStep1 s with _ | ⟨d, rest⟩
    · simp only [sanitizeStep2]
      decide
    · simp only [sanitizeStep2]
      by_cases hd : jsDigit d = true
      · rw [if_pos hd]
        simp only [List.map_cons, List.headD_cons]
        decide
      · rw [if_neg hd]
        simp only [List.map_cons, List.headD_cons]
        apply lowerChar_notDigit
        simpa using hd

/-- Claim C2 counterexample: the claim (and the spec's example) says
`classify({note:"confidential salary data"})` is `confidential`, but the
word `confidential` is itself one of the `restrictedPatterns`, which are
checked first, so the code returns `restricted`. -/
theorem classifyData_confidential_example_refuted :
    classifyData [("note", JSValue.str "confidential salary data")] ≠
      "confidential" := by decide

/-- Claim C2 (amended): on the spec's three example records the classifier
returns `restricted` (the text contains the restricted pattern
`confidential`), `restricted` (pattern `patent`, and `trade.*secret`), and
`internal` respectively. -/
theorem classifyData_spec_examples :
    classifyData [("note", JSValue.str "confidential salary data")] =
      "restricted" ∧
    classifyData [("note", JSValue.str "patent pending trade secret")] =
      "restricted" ∧
    classifyData [("note", JSValue.str "hello world")] = "internal" := by
  refine ⟨by decide, by decide, by decide⟩

/-- Claim C3: `generateTableSQL("orders", [{name:"ssn", type:"text",
required:true}], {enableEncryption:true})` yields CREATE TABLE text with an
`"ssn_encrypted"` column and an `"ssn_hash"` column and no plain `"ssn"`
column (the quoted identifier `"ssn"` never occurs). -/
theorem generateTableSQL_orders_ssn_columns :
    containsL "\"ssn_encrypted\"".data
      (generateTableSQL "orders" [⟨"ssn", "text", true, ""⟩]
        ⟨none, some true, none, none, none⟩).data = true ∧
    containsL "\"ssn_hash\"".data
      (generateTableSQL "orders" [⟨"ssn", "text", true, ""⟩]
        ⟨none, some true, none, none, none⟩).data = true ∧
    containsL "\"ssn\"".data
      (generateTableSQL "orders" [⟨"ssn", "text", true, ""⟩]
        ⟨none, some true, none, none, none⟩).data = false := by
  refine ⟨by decide, by decide, by decide⟩

/-- Claim C7: the persisted audit log is capped at 1000 entries, and the
eviction is strict FIFO — appending to a full log of 1000 entries drops
exactly the oldest entry and keeps the most recent 1000 in order. -/
theorem auditLog_capacity_fifo (logs : List LogEntry) (e : LogEntry) :
    (appendPersistedLog logs e).length ≤ 1000 ∧
    (logs.length = 1000 →
      appendPersistedLog logs e = logs.drop 1 ++ [e]) := by
  constructor
  · simp only [appendPersistedLog]
    split
    · rename_i h
      rw [List.length_drop]
      omega
    · rename_i h
      omega
  · intro h
    simp only [appendPersistedLog]
    have hl : (logs ++ [e]).length = 1001 := by simp [h]
    rw [if_pos (hl ▸ (by omega : (1001 : Nat) > 1000)), hl]
    have h1 : (1001 : Nat) - 1000 = 1 := by norm_num
    rw [h1, List.drop_append_of_le_length (by omega)]

/-- Claim C7 witness: appending the 1001st entry to a full log of 1000
entries keeps the length at 1000 and evicts exactly the oldest entry. -/
theorem auditLog_capacity_fifo_witness :
    (appendPersistedLog (List.replicate 1000 (⟨"t", "e", "u", "i", "a"⟩ : LogEntry))
        ⟨"t", "e", "u", "i", "a"⟩).length ≤ 1000 ∧
    appendPersistedLog (List.replicate 1000 (⟨"t", "e", "u", "i", "a"⟩ : LogEntry))
        ⟨"t", "e", "u", "i", "a"⟩ =
      (List.replicate 1000 (⟨"t", "e", "u", "i", "a"⟩ : LogEntry)).drop 1 ++
        [⟨"t", "e", "u", "i", "a"⟩] :=
  ⟨(auditLog_capacity_fifo _ _).1,
   (auditLog_capacity_fifo _ _).2 (by simp)⟩

/-- Setting a key always makes it present with exactly that value. -/
theorem lookupJS_objSet_self (r : Record) (k : String) (v : JSValue) :
    lookupJS k (objSet r k v) = some v := by
  induction r with
  | nil => simp [objSet, lookupJS]
  | cons kv rest ih =>
      obtain ⟨k', v'⟩ := kv
      by_cases h : k' = k
      · subst h
        simp [objSet, lookupJS]
      · simp [objSet, lookupJS, h, ih]

/-- Claim C4: the `data_hash` attached to the transmitted record is the
digest of the original raw `formData` (computed before metadata attachment
and before encryption), not of the transformed record. -/
theorem submit_data_hash_is_original_digest (connected : Bool) (tbl : String)
    (r : Record) (ctx : SecurityContext) (enc hash : String → String)
    (net : NetResult) (rec : Record)
    (h : (submitSecureData connected tbl r ctx enc hash net).sent = some rec) :
    lookupJS "data_hash" rec = some (.str (generateDataHash hash r)) := by
  have hrec : rec = transformRecord enc hash r ctx := by
    cases connected with
    | false => simp [submitSecureData] at h
    | true =>
        simp only [submitSecureData] at h
        by_cases hv : (validateSubmission r tbl ctx).isValid = true
        · cases net <;> simp [hv] at h <;> exact h.symm
        · simp [hv] at h
  subst hrec
  unfold transformRecord
  exact lookupJS_objSet_self _ _ _

/-- Claim C4 witness: a concrete successful submission in which the
transmitted record's `data_hash` is the digest of the raw input record. -/
theorem submit_data_hash_is_original_digest_witness :
    lookupJS "data_hash"
        (transformRecord id id [("color", JSValue.str "blue")]
          ⟨some "a@b.co", none, none⟩) =
      some (.str (generateDataHash id [("color", JSValue.str "blue")])) :=
  submit_data_hash_is_original_digest true "t" [("color", JSValue.str "blue")]
    ⟨some "a@b.co", none, none⟩ id id NetResult.ok
    (transformRecord id id [("color", JSValue.str "blue")]
      ⟨some "a@b.co", none, none⟩) (by decide)

/-- Claim C5: a record classified `restricted` fails validation under every
non-admin security context, while under an admin role (with an
authenticated user) validation passes and the submission proceeds through
transformation to transmission. -/
theorem validate_restricted_requires_admin (enc hash : String → String)
    (r : Record) (tbl : String) (ctx : SecurityContext) :
    (classifyData r = "restricted" → ctx.role ≠ some "admin" →
      (validateSubmission r tbl ctx).isValid = false) ∧
    (ctx.role = some "admin" → truthyOpt ctx.userEmail = true →
      (validateSubmission r tbl ctx).isValid = true) ∧
    (ctx.role = some "admin" → truthyOpt ctx.userEmail = true →
      ∀ net, (submitSecureData true tbl r ctx enc hash net).sent =
        some (transformRecord enc hash r ctx)) := by
  have hvalid : ∀ _ : ctx.role = some "admin",
      ∀ _ : truthyOpt ctx.userEmail = true,
      (validateSubmission r tbl ctx).isValid = true := by
    intro hrole he
    simp [validateSubmission, he, hrole]
  refine ⟨?_, hvalid, ?_⟩
  · intro hcl hrole
    simp only [validateSubmission]
    cases he2 : truthyOpt ctx.userEmail <;> simp [he2, hcl, hrole]
  · intro hrole he net
    have hv := hvalid hrole he
    cases net <;> simp [submitSecureData, hv]

/-- Claim C5 witness: a concrete restricted record (`classified` matches a
restricted pattern) is rejected for a non-admin user and accepted — and
transmitted — for an admin. -/
theorem validate_restricted_requires_admin_witness :
    (validateSubmission [("note", JSValue.str "classified")] "t"
      ⟨some "u@x.co", none, some "user"⟩).isValid = false ∧
    (validateSubmission [("note", JSValue.str "classified")] "t"
      ⟨some "a@x.co", none, some "admin"⟩).isValid = true ∧
    (submitSecureData true "t" [("note", JSValue.str "classified")]
        ⟨some "a@x.co", none, some "admin"⟩ id id NetResult.ok).sent =
      some (transformRecord id id [("note", JSValue.str "classified")]
        ⟨some "a@x.co", none, some "admin"⟩) :=
  ⟨(validate_restricted_requires_admin id id
      [("note", JSValue.str "classified")] "t"
      ⟨some "u@x.co", none, some "user"⟩).1 (by decide) (by decide),
   (validate_restricted_requires_admin id id
      [("note", JSValue.str "classified")] "t"
      ⟨some "a@x.co", none, some "admin"⟩).2.1 rfl (by decide),
   (validate_restricted_requires_admin id id
      [("note", JSValue.str "classified")] "t"
      ⟨some "a@x.co", none, some "admin"⟩).2.2 rfl (by decide) NetResult.ok⟩

/-- Claim C6: with a missing or empty `userEmail` in the security context,
validation fails with the authentication-required error for every record,
and `submitSecureData` returns a failure without transmitting anything. -/
theorem validate_missing_email_fails (r : Record) (tbl : String)
    (ctx : SecurityContext) (enc hash : String → String) (connected : Bool)
    (net : NetResult) (h : truthyOpt ctx.userEmail = false) :
    (validateSubmission r tbl ctx).isValid = false ∧
    "User authentication required" ∈ (validateSubmission r tbl ctx).errors ∧
    (submitSecureData connected tbl r ctx enc hash net).success = false ∧
    (submitSecureData connected tbl r ctx enc hash net).sent = none := by
  have hinvalid : (validateSubmission r tbl ctx).isValid = false := by
    simp [validateSubmission, h]
  have hmem :
      "User authentication required" ∈ (validateSubmission r tbl ctx).errors := by
    simp [validateSubmission, h]
  refine ⟨hinvalid, hmem, ?_⟩
  cases connected with
  | false => exact ⟨rfl, rfl⟩
  | true =>
      constructor <;> simp [submitSecureData, hinvalid]

/-- Claim C6 witness: a concrete submission with an absent `userEmail` is
rejected with the authentication error and nothing is transmitted. -/
theorem validate_missing_email_fails_witness :
    (validateSubmission [("a", JSValue.str "x")] "t"
      ⟨none, none, none⟩).isValid = false ∧
    "User authentication required" ∈
      (validateSubmission [("a", JSValue.str "x")] "t"
        ⟨none, none, none⟩).errors ∧
    (submitSecureData true "t" [("a", JSValue.str "x")] ⟨none, none, none⟩
      id id NetResult.ok).success = false ∧
    (submitSecureData true "t" [("a", JSValue.str "x")] ⟨none, none, none⟩
      id id NetResult.ok).sent = none :=
  validate_missing_email_fails [("a", JSValue.str "x")] "t" ⟨none, none, none⟩
    id id true NetResult.ok rfl

/-- Claim C8 counterexample: the claim says every submission reaching a
terminal state emits exactly one audit-log entry, but a validation failure
emits two — `VALIDATION_ATTEMPT` (from `validateSubmission`) and
`DATA_SUBMISSION_FAILED` — before `submitSecureData` returns. -/
theorem submit_validation_failure_two_audit_events :
    (submitSecureData true "t" [("a", JSValue.str "x")] ⟨none, none, none⟩
      id id NetResult.ok).events =
      ["VALIDATION_ATTEMPT", "DATA_SUBMISSION_FAILED"] ∧
    (submitSecureData true "t" [("a", JSValue.str "x")] ⟨none, none, none⟩
      id id NetResult.ok).events.length ≠ 1 ∧
    (submitSecureData true "t" [("a", JSValue.str "x")] ⟨none, none, none⟩
      id id NetResult.ok).success = false := by
  refine ⟨by decide, by decide, by decide⟩

/-- Claim C8 (amended): every call to `submitSecureData` — reaching
`Succeeded` or `Failed` on any path, including a validation short-circuit —
emits exactly one terminal audit entry (`DATA_SUBMITTED` or
`DATA_SUBMISSION_FAILED`) before returning; when validation runs it
additionally emits one non-terminal `VALIDATION_ATTEMPT` entry. -/
theorem submit_one_terminal_audit_event (connected : Bool) (tbl : String)
    (r : Record) (ctx : SecurityContext) (enc hash : String → String)
    (net : NetResult) :
    ((submitSecureData connected tbl r ctx enc hash net).events.countP
      (fun e => e == "DATA_SUBMITTED" || e == "DATA_SUBMISSION_FAILED")) =
      1 := by
  cases connected with
  | false => rfl
  | true =>
      simp only [submitSecureData]
      by_cases hv : (validateSubmission r tbl ctx).isValid = true
      · cases net <;> simp [hv]
      · simp [hv]

/-! ## `encryptSensitiveData` pass-through of falsy sensitive values -/

/-- Key list of a cons record. -/
theorem recKeys_cons (k : String) (v : JSValue) (rest : Record) :
    recKeys ((k, v) :: rest) = k :: recKeys rest := rfl

/-- Keys after a property assignment: unchanged when the key was present,
otherwise the key is appended. -/
theorem recKeys_objSet (r : Record) (k : String) (v : JSValue) :
    recKeys (objSet r k v) =
      if k ∈ recKeys r then recKeys r else recKeys r ++ [k] := by
  induction r with
  | nil => simp [objSet, recKeys]
  | cons kv rest ih =>
      obtain ⟨k', v'⟩ := kv
      by_cases h : k' = k
      · subst h
        show recKeys (if k' = k' then (k', v) :: rest else (k', v') :: objSet rest k' v) =
          if k' ∈ recKeys ((k', v') :: rest) then recKeys ((k', v') :: rest)
          else recKeys ((k', v') :: rest) ++ [k']
        rw [if_pos rfl]
        simp only [recKeys_cons]
        rw [if_pos (List.mem_cons_self k' (recKeys rest))]
      · simp only [objSet, if_neg h, recKeys_cons]
        rw [ih]
        by_cases hm : k ∈ recKeys rest
        · rw [if_pos hm, if_pos (List.mem_cons_of_mem k' hm)]
        · have hnotin : k ∉ k' :: recKeys rest := by
            intro hk
            rcases List.mem_cons.mp hk with heq | hk2
            · exact h heq.symm
            · exact hm hk2
          rw [if_neg hm, if_neg hnotin, List.cons_append]

/-- Membership in the keys of an `objSet` result. -/
theorem mem_recKeys_objSet (r : Record) (k j : String) (v : JSValue) :
    j ∈ recKeys (objSet r k v) ↔ j ∈ recKeys r ∨ j = k := by
  rw [recKeys_objSet]
  by_cases hm : k ∈ recKeys r
  · rw [if_pos hm]
    constructor
    · exact Or.inl
    · rintro (h | rfl)
      · exact h
      · exact hm
  · rw [if_neg hm]
    simp

/-- Property assignment at a different key preserves an entry. -/
theorem mem_objSet_of_ne (r : Record) (k j : String) (v w : JSValue)
    (hne : j ≠ k) : (j, w) ∈ objSet r k v ↔ (j, w) ∈ r := by
  induction r with
  | nil => simp [objSet, Prod.mk.injEq, hne]
  | cons kv rest ih =>
      obtain ⟨k', v'⟩ := kv
      by_cases h : k' = k
      · subst h
        simp [objSet, Prod.mk.injEq, hne]
      · simp [objSet, Prod.mk.injEq, h, ih]

/-- Setting an absent key is an append. -/
theorem objSet_of_not_mem (r : Record) (k : String) (v : JSValue)
    (h : k ∉ recKeys r) : objSet r k v = r ++ [(k, v)] := by
  induction r with
  | nil => rfl
  | cons kv rest ih =>
      obtain ⟨k', v'⟩ := kv
      simp only [recKeys, List.map_cons, List.mem_cons, not_or] at h
      obtain ⟨h1, h2⟩ := h
      have h1' : ¬ (k' = k) := fun heq => h1 heq.symm
      have h2' : k ∉ recKeys rest := h2
      simp [objSet, h1', ih h2']

/-- In a record with `Nodup` keys, a key determines its value. -/
theorem value_unique_of_nodup (r : Record) (k : String) (a b : JSValue)
    (hnd : (recKeys r).Nodup) (ha : (k, a) ∈ r) (hb : (k, b) ∈ r) :
    a = b := by
  induction r with
  | nil => simp at ha
  | cons kv rest ih =>
      obtain ⟨k', v'⟩ := kv
      simp only [recKeys, List.map_cons, List.nodup_cons] at hnd
      obtain ⟨hk', hrest⟩ := hnd
      simp only [List.mem_cons, Prod.mk.injEq] at ha hb
      rcases ha with ⟨rfl, rfl⟩ | ha
      · rcases hb with ⟨_, rfl⟩ | hb
        · rfl
        · exact absurd (List.mem_map_of_mem Prod.fst hb) hk'
      · rcases hb with ⟨heq, rfl⟩ | hb
        · subst heq
          exact absurd (List.mem_map_of_mem Prod.fst ha) hk'
        · exact ih hrest ha hb

/-- The keys that one loop iteration of `encryptSensitiveData` writes for
an entry: the `_encrypted`/`_hash` pair for a truthy sensitive entry, the
entry's own key otherwise. -/
def prodKeys (e : String × JSValue) : List String :=
  if isSensitiveField e.1 "" && truthy e.2 then
    [e.1 ++ "_encrypted", e.1 ++ "_hash"]
  else [e.1]

/-- A key not written by one loop iteration stays absent. -/
theorem encStep_keys_absent (enc hash : String → String) (acc : Record)
    (e : String × JSValue) (K : String) (h1 : K ∉ recKeys acc)
    (h2 : K ∉ prodKeys e) : K ∉ recKeys (encStep enc hash acc e) := by
  by_cases hc : (isSensitiveField e.1 "" && truthy e.2) = true
  · simp only [prodKeys, if_pos hc, List.mem_cons, not_or] at h2
    simp only [encStep, if_pos hc]
    rw [mem_recKeys_objSet, mem_recKeys_objSet]
    simp [h1, h2.1, h2.2.1]
  · simp only [prodKeys, if_neg hc, List.mem_cons, not_or] at h2
    simp only [encStep, if_neg hc]
    rw [mem_recKeys_objSet]
    simp [h1, h2.1]

/-- An entry whose key one loop iteration does not write is preserved. -/
theorem encStep_mem_preserved (enc hash : String → String) (acc : Record)
    (e : String × JSValue) (k : String) (v : JSValue)
    (hmem : (k, v) ∈ acc) (h2 : k ∉ prodKeys e) :
    (k, v) ∈ encStep enc hash acc e := by
  by_cases hc : (isSensitiveField e.1 "" && truthy e.2) = true
  · simp only [prodKeys, if_pos hc, List.mem_cons, not_or] at h2
    simp only [encStep, if_pos hc]
    exact (mem_objSet_of_ne _ _ _ _ _ h2.2.1).mpr
      ((mem_objSet_of_ne _ _ _ _ _ h2.1).mpr hmem)
  · simp only [prodKeys, if_neg hc, List.mem_cons, not_or] at h2
    simp only [encStep, if_neg hc]
    exact (mem_objSet_of_ne _ _ _ _ _ h2.1).mpr hmem

/-- A key no loop iteration writes stays absent across the whole fold. -/
theorem foldl_encStep_keys_absent (enc hash : String → String)
    (rest : Record) (acc : Record) (K : String) (h1 : K ∉ recKeys acc)
    (h2 : ∀ e ∈ rest, K ∉ prodKeys e) :
    K ∉ recKeys (rest.foldl (encStep enc hash) acc) := by
  induction rest generalizing acc with
  | nil => exact h1
  | cons e rest ih =>
      simp only [List.foldl_cons]
      exact ih _
        (encStep_keys_absent enc hash acc e K h1 (h2 e (List.mem_cons_self e rest)))
        (fun e' he' => h2 e' (List.mem_cons_of_mem e he'))

/-- An entry no loop iteration overwrites survives the whole fold. -/
theorem foldl_encStep_mem_preserved (enc hash : String → String)
    (rest : Record) (acc : Record) (k : String) (v : JSValue)
    (hmem : (k, v) ∈ acc) (h2 : ∀ e ∈ rest, k ∉ prodKeys e) :
    (k, v) ∈ rest.foldl (encStep enc hash) acc := by
  induction rest generalizing acc with
  | nil => exact hmem
  | cons e rest ih =>
      simp only [List.foldl_cons]
      exact ih _
        (encStep_mem_preserved enc hash acc e k v hmem (h2 e (List.mem_cons_self e rest)))
        (fun e' he' => h2 e' (List.mem_cons_of_mem e he'))

/-- String append cancels on the right. -/
theorem string_append_cancel (a b s : String) (h : a ++ s = b ++ s) :
    a = b := by
  have h2 : a.data ++ s.data = b.data ++ s.data := by
    rw [← String.data_append, ← String.data_append, h]
  have h3 : a.data = b.data := List.append_cancel_right h2
  cases a
  cases b
  exact congrArg String.mk h3

/-- No string ending in `_hash` ends in `_encrypted`. -/
theorem hash_ne_encrypted (a b : String) : a ++ "_hash" ≠ b ++ "_encrypted" := by
  intro h
  have h2 : (a ++ "_hash").data = (b ++ "_encrypted").data :=
    congrArg String.data h
  rw [String.data_append, String.data_append] at h2
  have h3 := congrArg List.reverse h2
  rw [List.reverse_append, List.reverse_append] at h3
  have e1 : ("_hash".data).reverse = ['h', 's', 'a', 'h', '_'] := rfl
  have e2 : ("_encrypted".data).reverse =
      ['d', 'e', 't', 'p', 'y', 'r', 'c', 'n', 'e', '_'] := rfl
  rw [e1, e2] at h3
  simp at h3

/-- Claim C10: a field whose name `isSensitiveField` classifies sensitive
but whose value is falsy (`""`, `0`, `false`, `null`) is copied through
`encryptSensitiveData` unchanged in plaintext under its original key, and
no `<field>_encrypted` / `<field>_hash` entries are produced for it — so
the non-empty falsy values `0` and `false` are stored unencrypted even in
sensitive fields.  (The record is assumed well-formed: JS-object `Nodup`
keys, and no field name equal to another field's `_encrypted`/`_hash`
artifact name.) -/
theorem encrypt_falsy_sensitive_passthrough (enc hash : String → String)
    (data : Record) (k : String) (v : JSValue)
    (hmem : (k, v) ∈ data)
    (hsens : isSensitiveField k "" = true)
    (hfalsy : truthy v = false)
    (hnodup : (recKeys data).Nodup)
    (hart : ∀ k2 ∈ recKeys data, k ≠ k2 ++ "_encrypted" ∧ k ≠ k2 ++ "_hash")
    (henc : (k ++ "_encrypted") ∉ recKeys data)
    (hhash : (k ++ "_hash") ∉ recKeys data) :
    (k, v) ∈ encryptSensitiveData enc hash data ∧
    (k ++ "_encrypted") ∉ recKeys (encryptSensitiveData enc hash data) ∧
    (k ++ "_hash") ∉ recKeys (encryptSensitiveData enc hash data) := by
  have hval : ∀ e ∈ data, e.1 = k → e.2 = v := by
    intro e he h1
    apply value_unique_of_nodup data k e.2 v hnodup ?_ hmem
    have he' : (e.1, e.2) ∈ data := by simpa using he
    rw [h1] at he'
    exact he'
  have habs_enc : ∀ e ∈ data, (k ++ "_encrypted") ∉ prodKeys e := by
    intro e he
    unfold prodKeys
    by_cases hc : (isSensitiveField e.1 "" && truthy e.2) = true
    · rw [if_pos hc]
      intro hk
      rcases List.mem_cons.mp hk with h1 | h1
      · have he1 : e.1 = k := string_append_cancel e.1 k "_encrypted" h1.symm
        have hv2 := hval e he he1
        have ht : truthy e.2 = true := by
          revert hc
          cases truthy e.2 <;> simp
        rw [hv2] at ht
        simp [hfalsy] at ht
      · have h1' : k ++ "_encrypted" = e.1 ++ "_hash" := List.mem_singleton.mp h1
        exact hash_ne_encrypted e.1 k h1'.symm
    · rw [if_neg hc]
      intro hk
      have h1 : k ++ "_encrypted" = e.1 := List.mem_singleton.mp hk
      apply henc
      rw [h1]
      exact List.mem_map_of_mem Prod.fst he
  have habs_hash : ∀ e ∈ data, (k ++ "_hash") ∉ prodKeys e := by
    intro e he
    unfold prodKeys
    by_cases hc : (isSensitiveField e.1 "" && truthy e.2) = true
    · rw [if_pos hc]
      intro hk
      rcases List.mem_cons.mp hk with h1 | h1
      · exact hash_ne_encrypted k e.1 h1
      · have h1' : k ++ "_hash" = e.1 ++ "_hash" := List.mem_singleton.mp h1
        have he1 : e.1 = k := string_append_cancel e.1 k "_hash" h1'.symm
        have hv2 := hval e he he1
        have ht : truthy e.2 = true := by
          revert hc
          cases truthy e.2 <;> simp
        rw [hv2] at ht
        simp [hfalsy] at ht
    · rw [if_neg hc]
      intro hk
      have h1 : k ++ "_hash" = e.1 := List.mem_singleton.mp hk
      apply hhash
      rw [h1]
      exact List.mem_map_of_mem Prod.fst he
  refine ⟨?_, ?_, ?_⟩
  · obtain ⟨pre, post, hdata⟩ := List.append_of_mem hmem
    have hkeys : recKeys data = recKeys pre ++ k :: recKeys post := by
      rw [hdata]
      simp [recKeys]
    rw [hkeys] at hnodup
    obtain ⟨hnd1, hnd2, hdisj⟩ := List.nodup_append.mp hnodup
    have hkpre : k ∉ recKeys pre := fun hk =>
      hdisj hk (List.mem_cons_self k (recKeys post))
    have hkpost : k ∉ recKeys post := (List.nodup_cons.mp hnd2).1
    have hall : ∀ e ∈ data, e.1 ≠ k → k ∉ prodKeys e := by
      intro e he hne
      unfold prodKeys
      have he1 : e.1 ∈ recKeys data := List.mem_map_of_mem Prod.fst he
      by_cases hc : (isSensitiveField e.1 "" && truthy e.2) = true
      · rw [if_pos hc]
        intro hk
        rcases List.mem_cons.mp hk with h1 | h1
        · exact (hart e.1 he1).1 h1
        · exact (hart e.1 he1).2 (List.mem_singleton.mp h1)
      · rw [if_neg hc]
        intro hk
        exact hne ((List.mem_singleton.mp hk).symm)
    have hallpre : ∀ e ∈ pre, k ∉ prodKeys e := by
      intro e he
      refine hall e ?_ ?_
      · rw [hdata]
        exact List.mem_append_left _ he
      · intro h1
        exact hkpre (h1 ▸ List.mem_map_of_mem Prod.fst he)
    have hallpost : ∀ e ∈ post, k ∉ prodKeys e := by
      intro e he
      refine hall e ?_ ?_
      · rw [hdata]
        exact List.mem_append_right _ (List.mem_cons_of_mem _ he)
      · intro h1
        exact hkpost (h1 ▸ List.mem_map_of_mem Prod.fst he)
    have hacc0 : k ∉ recKeys (pre.foldl (encStep enc hash) []) :=
      foldl_encStep_keys_absent enc hash pre [] k (by simp [recKeys]) hallpre
    have hcond : ¬ ((isSensitiveField (k, v).1 "" && truthy (k, v).2) = true) := by
      simp [hfalsy]
    have hstep : encStep enc hash (pre.foldl (encStep enc hash) []) (k, v) =
        pre.foldl (encStep enc hash) [] ++ [(k, v)] := by
      rw [encStep, if_neg hcond, objSet_of_not_mem _ _ _ hacc0]
    have hsplit : encryptSensitiveData enc hash data =
        post.foldl (encStep enc hash)
          (encStep enc hash (pre.foldl (encStep enc hash) []) (k, v)) := by
      rw [encryptSensitiveData, hdata, List.foldl_append, List.foldl_cons]
    rw [hsplit, hstep]
    exact foldl_encStep_mem_preserved enc hash post _ k v
      (List.mem_append_right _ (List.mem_singleton.mpr rfl)) hallpost
  · exact foldl_encStep_keys_absent enc hash data [] _ (by simp [recKeys])
      habs_enc
  · exact foldl_encStep_keys_absent enc hash data [] _ (by simp [recKeys])
      habs_hash

/-- Claim C10 witness: the sensitive field `ssn` with the falsy numeric
value `0` passes through unencrypted, with no artifact columns. -/
theorem encrypt_falsy_sensitive_passthrough_witness :
    ("ssn", JSValue.num 0) ∈ encryptSensitiveData id id [("ssn", JSValue.num 0)] ∧
    ("ssn" ++ "_encrypted") ∉
      recKeys (encryptSensitiveData id id [("ssn", JSValue.num 0)]) ∧
    ("ssn" ++ "_hash") ∉
      recKeys (encryptSensitiveData id id [("ssn", JSValue.num 0)]) :=
  encrypt_falsy_sensitive_passthrough id id [("ssn", JSValue.num 0)] "ssn"
    (JSValue.num 0) (by decide) (by decide) (by decide) (by decide)
    (by decide) (by decide) (by decide)

/-! ## Key-order invariance of the record digest -/

/-- Property lookup is invariant under record permutation when the keys are
`Nodup` (as JS-object keys are). -/
theorem lookupJS_perm (r1 r2 : Record) (hperm : List.Perm r1 r2) :
    (recKeys r1).Nodup → ∀ k, lookupJS k r1 = lookupJS k r2 := by
  induction hperm with
  | nil =>
      intro _ k
      rfl
  | cons x hml ih =>
      intro hnd k
      obtain ⟨k', v'⟩ := x
      have hnd' := (List.nodup_cons.mp hnd).2
      by_cases h : k' = k
      · simp [lookupJS, h]
      · simp only [lookupJS, if_neg h]
        exact ih hnd' k
  | swap x y l =>
      intro hnd k
      obtain ⟨kx, vx⟩ := x
      obtain ⟨ky, vy⟩ := y
      have hne : ky ≠ kx := by
        intro heq
        apply (List.nodup_cons.mp hnd).1
        rw [heq]
        exact List.mem_cons_self kx (recKeys l)
      by_cases h2 : ky = k <;> by_cases h1 : kx = k
      · exact absurd (h2.trans h1.symm) hne
      · simp [lookupJS, h1, h2]
      · simp [lookupJS, h1, h2]
      · simp [lookupJS, h1, h2]
  | trans h12 h23 ih1 ih2 =>
      intro hnd k
      have hnd2 := ((h12.map Prod.fst).nodup hnd : _)
      exact (ih1 hnd k).trans (ih2 hnd2 k)

/-- Sorting the keys cancels any difference in insertion order. -/
theorem sortedKeys_perm_eq (r1 r2 : Record) (hperm : List.Perm r1 r2) :
    sortedKeys r1 = sortedKeys r2 := by
  have hk : (recKeys r1).Perm (recKeys r2) := hperm.map Prod.fst
  have h1 : (sortedKeys r1).Perm (recKeys r1) := List.perm_insertionSort _ _
  have h2 : (sortedKeys r2).Perm (recKeys r2) := List.perm_insertionSort _ _
  exact List.eq_of_perm_of_sorted (h1.trans (hk.trans h2.symm))
    (List.sorted_insertionSort _ _) (List.sorted_insertionSort _ _)

/-- Claim C1: `generateDataHash` is insertion-order independent — two
records with identical key-value pairs in different insertion order (a
permutation, with JS-object `Nodup` keys) produce the same digest string,
for every deterministic hashing primitive. -/
theorem recordDigest_key_order_invariant (hash : String → String)
    (r1 r2 : Record) (hperm : List.Perm r1 r2)
    (hnodup : (recKeys r1).Nodup) :
    generateDataHash hash r1 = generateDataHash hash r2 := by
  unfold generateDataHash jsonStringifySortedKeys
  rw [sortedKeys_perm_eq r1 r2 hperm]
  have hfun : (fun k => (lookupJS k r1).map (fun v => (k, v))) =
      (fun k => (lookupJS k r2).map (fun v => (k, v))) := by
    funext k
    rw [lookupJS_perm r1 r2 hperm hnodup k]
  rw [hfun]

/-- Claim C1 witness: two concrete two-field records that differ only in
key insertion order hash identically. -/
theorem recordDigest_key_order_invariant_witness :
    generateDataHash id [("b", JSValue.str "1"), ("a", JSValue.str "2")] =
      generateDataHash id [("a", JSValue.str "2"), ("b", JSValue.str "1")] :=
  recordDigest_key_order_invariant id
    [("b", JSValue.str "1"), ("a", JSValue.str "2")]
    [("a", JSValue.str "2"), ("b", JSValue.str "1")]
    (List.Perm.swap ("a", JSValue.str "2") ("b", JSValue.str "1") [])
    (by decide)
